import Mathlib

set_option maxHeartbeats 1000000

/-!
Shallow embedding of the Stratum gateway core of the mining-pool proxy
(the `proxy` package of open-ubiq-pool-friends), together with theorems that
settle the behavioural claims about it.

Conventions of the embedding:
* Go maps over string keys become association lists with insert-overwrite and
  delete; the key list is kept duplicate-free by construction.
* Go `string` becomes Lean `String`; all strings involved are ASCII, so Go's
  byte length coincides with the character length used here.
* External collaborators (`handleLoginRPC`, `handleGetWorkRPC`,
  `handleTCPSubmitRPC`, `handleUnknownRPC`, `strconv.ParseInt`, the random
  source) live outside this package's sources and are supplied as an explicit
  environment (`Env`) or as input streams.
* Socket writes and policy calls are modelled as an effect trace; the JSON
  encoder itself is assumed to succeed (I/O failure is outside the shallow
  embedding).
* A Go runtime panic (out-of-bounds slice or index) is modelled as `none` in
  an `Option`-valued result.
-/

namespace Pool

/-- `ErrorReply` of the Go source: a JSON-RPC error carrying a code and a message. -/
structure ErrorReply where
  Code : Int
  Message : String
deriving DecidableEq

/-- `staleJob` of the Go source: the cached seed/header pair of a superseded job. -/
structure staleJob where
  SeedHash : String
  HeaderHash : String
deriving DecidableEq

/-- `jobDetails` of the Go source. -/
structure jobDetails where
  JobID : String
  SeedHash : String
  HeaderHash : String
  Height : String
deriving DecidableEq

/-- Stratum-mode constant `EthProxy` (= 0, first of the Go `iota` pair). -/
def EthProxy : Int := 0

/-- Stratum-mode constant `NiceHash` (= 1). -/
def NiceHash : Int := 1

/-- The per-connection `Session` state of the Go source (the fields the logic
reads or writes; the transport handle and encoder are represented by the
effect trace instead). `stratum = -1` is the initial "unset" dialect. -/
structure Session where
  ip : String
  Extranonce : String
  ExtranonceSub : Bool
  stratum : Int
  worker : String
  login : String
  JobDetails : jobDetails
  staleJobs : List (String × staleJob)
  staleJobIDs : List String
deriving DecidableEq

/-- Go `delete(m, k)` on the stale-jobs map. -/
def mapDelete (m : List (String × staleJob)) (k : String) : List (String × staleJob) :=
  m.filter (fun p => p.1 ≠ k)

/-- Go `m[k] = v` on the stale-jobs map (insert-or-overwrite). -/
def mapInsert (m : List (String × staleJob)) (k : String) (v : staleJob) :
    List (String × staleJob) :=
  mapDelete m k ++ [(k, v)]

/-- Go `v, ok := m[k]` on the stale-jobs map. -/
def mapLookup (m : List (String × staleJob)) (k : String) : Option staleJob :=
  (m.find? (fun p => p.1 == k)).map (fun p => p.2)

/-- `cacheStales(max, n)` of the Go source: if more than `max` job ids are
recorded, evict all but the newest `n` (deleting their map entries), then
cache the currently active job under its id and append that id. -/
def cacheStales (cs : Session) (max n : Nat) : Session :=
  let l := cs.staleJobIDs.length
  let cs1 :=
    if l > max then
      let save := cs.staleJobIDs.drop (l - n)
      let del := cs.staleJobIDs.take (l - n)
      { cs with staleJobs := del.foldl mapDelete cs.staleJobs, staleJobIDs := save }
    else cs
  { cs1 with
    staleJobs := mapInsert cs1.staleJobs cs1.JobDetails.JobID
      ⟨cs1.JobDetails.SeedHash, cs1.JobDetails.HeaderHash⟩,
    staleJobIDs := cs1.staleJobIDs ++ [cs1.JobDetails.JobID] }

/-- The state evolution of one NiceHash `pushNewJob` call: cache the stales
with `max = 10`, `n = 3`, then overwrite `JobDetails` with the new job. -/
def pushStep (cs : Session) (newJob : jobDetails) : Session :=
  { cacheStales cs 10 3 with JobDetails := newJob }

/-- A whole sequence of `pushNewJob` state evolutions. -/
def runPushes (cs : Session) (jobs : List jobDetails) : Session :=
  jobs.foldl pushStep cs

/-- Keys of the stale-jobs map. -/
def keysOf (m : List (String × staleJob)) : List String := m.map Prod.fst

/-- Invariant maintained by the push loop: map keys are duplicate-free, every
key is recorded in `staleJobIDs`, and at most 11 ids are recorded. -/
def StaleInv (cs : Session) : Prop :=
  (keysOf cs.staleJobs).Nodup ∧
  (∀ k ∈ keysOf cs.staleJobs, k ∈ cs.staleJobIDs) ∧
  cs.staleJobIDs.length ≤ 11

/-- `setStratumMode` of the Go source: branch on the version string, always
returning a nil error (modelled as the `Option String` second component). -/
def setStratumMode (cs : Session) (str : String) : Session × Option String :=
  if str = "EthereumStratum/1.0.0" then ({ cs with stratum := NiceHash }, none)
  else ({ cs with stratum := EthProxy }, none)

/-- Guarded embedding of the `0x`-strip step of `sendJob` / `pushNewJob`. The
Go source evaluates `SeedHash[0:2]` with no length guard; a string shorter
than 2 bytes makes that slice (and, in the strip branch, `HeaderHash[2:]`)
panic, which this embedding reports as `none`. -/
def strip0x (jd : jobDetails) : Option jobDetails :=
  if 2 ≤ jd.SeedHash.length then
    if jd.SeedHash.take 2 = "0x" then
      if 2 ≤ jd.HeaderHash.length then
        some { jd with SeedHash := jd.SeedHash.drop 2, HeaderHash := jd.HeaderHash.drop 2 }
      else none
    else some jd
  else none

/-- `StratumReq` of the Go source. `Params` holds the result of
`json.Unmarshal` into `[]string`: `none` when the raw params do not decode. -/
structure StratumReq where
  Id : String
  Method : String
  Params : Option (List String)
  Worker : String
deriving DecidableEq

/-- One observable effect of handling a message: a frame written to the
socket, a call into the share/policy collaborators, or a teardown action. -/
inductive Effect where
  | tcpResult (id : String)
  | tcpError (id : String) (code : Int) (msg : String)
  | stratumResult (id : String)
  | stratumError2 (id : String) (code : String) (msg : String)
  | stratumErrorStr (id : String) (msg : String)
  | setDifficulty
  | setExtranonce (x : String)
  | notifyJob (jobID : String) (seed : String) (header : String) (clean : Bool)
  | submitCall (wkr : String) (params : List String)
  | banClient (ip : String)
  | malformedPolicy (ip : String)
  | removeSessionEff
  | connCloseEff
deriving DecidableEq

/-- Results of the external collaborators consulted while handling one
message (`handleLoginRPC`, `handleGetWorkRPC`, `handleTCPSubmitRPC`,
`handleUnknownRPC`, `strconv.ParseInt`, `randomHex(8)`). -/
structure Env where
  loginRes : Except ErrorReply Unit
  getWorkRes : Except ErrorReply (List String)
  submitRes : Except ErrorReply Unit
  unknownErr : ErrorReply
  newJobID : String
  hashrateParse : Option Int

/-- Result of one message handler: updated session, written/observed effects,
and the Go `error` return value (`none` = nil). -/
abbrev HandlerOut := Session × List Effect × Option String

/-- Go's rune-to-string conversion `string(code)` applied to an error code
(as done in `mining.authorize` and the `sendJob` error branch). -/
def runeString (c : Int) : String := String.mk [Char.ofNat c.toNat]

/-- The worker-name extraction of `mining.submit`: suffix of `params[0]`
after `"."`, or `"0"` when absent. -/
def submitWorkerOf (user : String) : String :=
  let splitData := user.splitOn "."
  if splitData.length > 1 then splitData.getD 1 "" else "0"

/-- Tail of `mining.submit`: call `handleTCPSubmitRPC` with the assembled
params and encode the reply (success or two-element stratum error). Both
branches return a nil error to the reader loop. -/
def submitAndReply (env : Env) (cs : Session) (id : String) (wkr : String)
    (p : List String) : HandlerOut :=
  match env.submitRes with
  | .error er => (cs, [.submitCall wkr p, .stratumError2 id (toString er.Code) er.Message], none)
  | .ok _ => (cs, [.submitCall wkr p, .stratumResult id], none)

/-- `sendJob` of the Go source. With `newjob = true` it fetches work, installs
fresh `JobDetails` (id from `randomHex(8)`, hashes from the reply, `0x`
stripped) and notifies; with `newjob = false` it re-notifies the current job.
`none` models the panics of `reply[3]` / unguarded slicing. -/
def sendJob (env : Env) (cs : Session) (id : String) (newjob : Bool) : Option HandlerOut :=
  if newjob then
    match env.getWorkRes with
    | .error er => some (cs, [.stratumError2 id (runeString er.Code) er.Message], none)
    | .ok reply =>
      match reply[0]?, reply[1]?, reply[3]? with
      | some hh, some sd, some ht =>
        match strip0x ⟨env.newJobID, sd, hh, ht⟩ with
        | none => none
        | some jd =>
          some ({ cs with JobDetails := jd },
            [.notifyJob jd.JobID jd.SeedHash jd.HeaderHash true], none)
      | _, _, _ => none
  else
    some (cs, [.notifyJob cs.JobDetails.JobID cs.JobDetails.SeedHash
      cs.JobDetails.HeaderHash true], none)

/-- The `eth_login` case of `handleTCPMessage`. -/
def handleEthLogin (env : Env) (cs : Session) (req : StratumReq) : Option HandlerOut :=
  match req.Params with
  | none => some (cs, [], some "unmarshal error")
  | some _ =>
    match env.loginRes with
    | .error er => some (cs, [.tcpError req.Id er.Code er.Message], some er.Message)
    | .ok _ => some (cs, [.tcpResult req.Id], none)

/-- The `eth_submitLogin` case: on bad decode return the decode error; on a
decoded-but-empty params list return the (nil) error unchanged; on login
success set the EthProxy mode and reply. -/
def handleEthSubmitLogin (env : Env) (cs : Session) (req : StratumReq) : Option HandlerOut :=
  match req.Params with
  | none => some (cs, [], some "unmarshal error")
  | some params =>
    if params.length < 1 then some (cs, [], none)
    else
      match env.loginRes with
      | .error er => some (cs, [.tcpError req.Id er.Code er.Message], some er.Message)
      | .ok _ => some ((setStratumMode cs "EthProxy").1, [.tcpResult req.Id], none)

/-- The `mining.subscribe` case: validate the version strings, set the
extranonce subscription and the NiceHash mode, reply with the notification
response (payload abstracted into the `stratumResult` effect). -/
def handleMiningSubscribe (env : Env) (cs : Session) (req : StratumReq) : Option HandlerOut :=
  match req.Params with
  | none => some (cs, [], some "unmarshal error")
  | some params =>
    if params.length < 2 then some (cs, [], none)
    else if params.getD 1 "" ≠ "EthereumStratum/1.0.0" ∧ params.getD 0 "" ≠ "GodMiner/2.0.0" then
      some (cs, [.stratumErrorStr req.Id "unsupported stratum version"], none)
    else
      some ((setStratumMode { cs with ExtranonceSub := true } "EthereumStratum/1.0.0").1,
        [.stratumResult req.Id], none)

/-- The NiceHash `mining.authorize` case. -/
def handleMiningAuthorize (env : Env) (cs : Session) (req : StratumReq) : Option HandlerOut :=
  match req.Params with
  | none => some (cs, [], some "invalid params")
  | some params =>
    if params.length < 1 then some (cs, [], some "invalid params")
    else
      match env.loginRes with
      | .error er => some (cs, [.stratumError2 req.Id (runeString er.Code) er.Message], none)
      | .ok _ =>
        match sendJob env cs req.Id true with
        | none => none
        | some (cs', effs, r) =>
          some (cs', .stratumResult req.Id :: .setDifficulty :: effs, r)

/-- The NiceHash `mining.extranonce.subscribe` case. -/
def handleExtranonceSub (env : Env) (cs : Session) (req : StratumReq) : Option HandlerOut :=
  match req.Params with
  | none => some (cs, [], some "invalid params")
  | some params =>
    if params.length = 0 then
      some ({ cs with ExtranonceSub := true },
        [.stratumResult req.Id, .setExtranonce cs.Extranonce], none)
    else some (cs, [.stratumError2 req.Id "20" "Not supported."], none)

/-- The NiceHash `mining.submit` case: record the worker name, assemble the
full nonce (extranonce prefix only when subscribed), pick seed/header from
the current job or the stale cache, and forward; on a miss reply
`["21","Stale share."]` and re-send the current job. -/
def handleMiningSubmit (env : Env) (cs : Session) (req : StratumReq) : Option HandlerOut :=
  match req.Params with
  | none => some (cs, [], some "unmarshal error")
  | some params =>
    if params.length < 3 then some (cs, [], none)
    else
      let user := params.getD 0 ""
      let jid := params.getD 1 ""
      let mn := params.getD 2 ""
      let wkr := submitWorkerOf user
      let cs1 := { cs with worker := wkr }
      let nonce := (if cs1.ExtranonceSub then cs1.Extranonce else "") ++ mn
      if jid = cs1.JobDetails.JobID then
        some (submitAndReply env cs1 req.Id wkr
          [nonce, cs1.JobDetails.SeedHash, cs1.JobDetails.HeaderHash])
      else
        match mapLookup cs1.staleJobs jid with
        | some st => some (submitAndReply env cs1 req.Id wkr [nonce, st.SeedHash, st.HeaderHash])
        | none =>
          match sendJob env cs1 req.Id false with
          | none => none
          | some (cs', effs, r) =>
            some (cs', .stratumError2 req.Id "21" "Stale share." :: effs, r)

/-- The EthProxy `eth_getWork` case. -/
def handleGetWork (env : Env) (cs : Session) (req : StratumReq) : Option HandlerOut :=
  match env.getWorkRes with
  | .error er => some (cs, [.tcpError req.Id er.Code er.Message], some er.Message)
  | .ok _ => some (cs, [.tcpResult req.Id], none)

/-- The EthProxy `eth_submitWork` case: the validation failure branch logs and
returns the decode error, which is nil whenever the params did decode. -/
def handleSubmitWork (env : Env) (cs : Session) (req : StratumReq) : Option HandlerOut :=
  match req.Params with
  | none => some (cs, [], some "unmarshal error")
  | some params =>
    if params.length < 3 ∨ (params.getD 0 "").length ≠ 18 ∨
        (params.getD 1 "").length ≠ 66 ∨ (params.getD 2 "").length ≠ 66 then
      some (cs, [], none)
    else
      match env.submitRes with
      | .error er => some (cs, [.tcpError req.Id er.Code er.Message], some er.Message)
      | .ok _ => some (cs, [.tcpResult req.Id], none)

/-- The EthProxy `eth_submitHashrate` case (`strconv.ParseInt` supplied by the
environment). -/
def handleSubmitHashrate (env : Env) (cs : Session) (req : StratumReq) : Option HandlerOut :=
  match req.Params with
  | none => some (cs, [], some "unmarshal error")
  | some params =>
    if params.length < 2 then some (cs, [], none)
    else
      let hstr := params.getD 0 ""
      if ¬ hstr.startsWith "0x" then some (cs, [], some "Malformed hashrate value")
      else
        match env.hashrateParse with
        | none => some (cs, [], some "parse error")
        | some _ => some (cs, [.tcpResult req.Id], none)

/-- `handleUnknownRPC` followed by `sendTCPError`: the error frame is written
and the reply's message is returned as a non-nil error to the reader loop. -/
def unknownTCPError (env : Env) (cs : Session) (req : StratumReq) : Option HandlerOut :=
  some (cs, [.tcpError req.Id env.unknownErr.Code env.unknownErr.Message],
    some env.unknownErr.Message)

/-- The method switch executed when the session is in NiceHash mode. -/
def handleNiceHashMethod (env : Env) (cs : Session) (req : StratumReq) : Option HandlerOut :=
  if req.Method = "mining.authorize" then handleMiningAuthorize env cs req
  else if req.Method = "mining.extranonce.subscribe" then handleExtranonceSub env cs req
  else if req.Method = "mining.submit" then handleMiningSubmit env cs req
  else some (cs, [.stratumError2 req.Id (toString env.unknownErr.Code) env.unknownErr.Message],
    none)

/-- The trailing method switch executed when the session is in EthProxy mode. -/
def handleEthProxyMethod (env : Env) (cs : Session) (req : StratumReq) : Option HandlerOut :=
  if req.Method = "eth_getWork" then handleGetWork env cs req
  else if req.Method = "eth_submitWork" then handleSubmitWork env cs req
  else if req.Method = "eth_submitHashrate" then handleSubmitHashrate env cs req
  else unknownTCPError env cs req

/-- `handleTCPMessage` of the Go source: the three always-handled methods,
then dispatch on the session's stratum mode (`-1` falls through to the
unknown-method JSON-RPC error). -/
def handleTCPMessage (env : Env) (cs : Session) (req : StratumReq) : Option HandlerOut :=
  if req.Method = "eth_login" then handleEthLogin env cs req
  else if req.Method = "eth_submitLogin" then handleEthSubmitLogin env cs req
  else if req.Method = "mining.subscribe" then handleMiningSubscribe env cs req
  else if cs.stratum = NiceHash then handleNiceHashMethod env cs req
  else if cs.stratum = EthProxy then handleEthProxyMethod env cs req
  else unknownTCPError env cs req

/-- One iteration's worth of reader input in `handleTCPClient`:
an over-long line (`ReadLine` reports the line incomplete, nil error), EOF, a
read error, a line of at most one byte (skipped), or a parsed request
(`none` = malformed JSON) together with that request's collaborator results. -/
inductive InEvent where
  | tooLong
  | eofEv
  | readFail (msg : String)
  | shortLine
  | request (req : Option StratumReq) (env : Env)

/-- Outcome of the reader loop: still blocked reading, returned with a Go
error value, or died from a runtime panic. -/
inductive ClientRes where
  | running (cs : Session) (effs : List Effect)
  | finished (cs : Session) (effs : List Effect) (ret : Option String)
  | panicked (effs : List Effect)

/-- `handleTCPClient` of the Go source, driven by a list of reader inputs.
The over-long-line branch bans the ip and returns the (nil) `ReadLine` error;
EOF removes the session and returns nil; read errors and malformed JSON
return non-nil errors; handler errors are propagated. -/
def clientLoop : Session → List InEvent → ClientRes
  | cs, [] => .running cs []
  | cs, e :: rest =>
    match e with
    | .tooLong => .finished cs [.banClient cs.ip] none
    | .eofEv => .finished cs [.removeSessionEff] none
    | .readFail m => .finished cs [] (some m)
    | .shortLine => clientLoop cs rest
    | .request none _ => .finished cs [.malformedPolicy cs.ip] (some "unmarshal error")
    | .request (some req) env =>
      match handleTCPMessage env cs req with
      | none => .panicked []
      | some (cs', effs, some e) => .finished cs' effs (some e)
      | some (cs', effs, none) =>
        match clientLoop cs' rest with
        | .running c es => .running c (effs ++ es)
        | .finished c es r => .finished c (effs ++ es) r
        | .panicked es => .panicked (effs ++ es)

/-- The server-side resources tied to one session: the extranonce registry,
this session's entry in the session table, its transport, and the policy ban
list. -/
structure ServerSt where
  extranonces : List String
  sessionPresent : Bool
  connClosed : Bool
  banned : List String
deriving DecidableEq

/-- Interpretation of one effect on the server-side resources (`ext` is the
session's extranonce; `removeSession` deletes it and the table entry). -/
def applyEffect (ext : String) (st : ServerSt) : Effect → ServerSt
  | .removeSessionEff =>
    { st with extranonces := st.extranonces.filter (fun x => x != ext), sessionPresent := false }
  | .banClient ip => { st with banned := ip :: st.banned }
  | .connCloseEff => { st with connClosed := true }
  | _ => st

/-- The per-session goroutine of `ListenTCP`: run `handleTCPClient`; only when
it returns a non-nil error call `removeSession` and `conn.Close()`. `none`
models an unfinished (still reading) or panicked run. -/
def runSession (st : ServerSt) (cs : Session) (evs : List InEvent) :
    Option (ServerSt × List Effect × Option String) :=
  match clientLoop cs evs with
  | .finished _ effs ret =>
    let st1 := effs.foldl (applyEffect cs.Extranonce) st
    let st2 :=
      if ret.isSome then
        applyEffect cs.Extranonce (applyEffect cs.Extranonce st1 .removeSessionEff) .connCloseEff
      else st1
    some (st2, effs, ret)
  | _ => none

/-- The sixteen characters `randomHex` draws from. -/
def hexChars : List Char := "0123456789abcdef".toList

/-- `randomHex(len)` of the Go source, with the random draws supplied as a
list of `rand.Intn(16)` results (one per output character). -/
def randomHex (idxs : List Nat) : String :=
  String.mk (idxs.map (fun i => hexChars.getD (i % 16) '0'))

/-- `uniqExtranonce` of the Go source: draw a candidate, retry while it is
already held, then record and return it. The random source is a list of draw
vectors; `none` means the stream was exhausted before a fresh value appeared. -/
def uniqExtranonce : List String → List (List Nat) → Option (String × List String)
  | _, [] => none
  | held, idxs :: rest =>
    let x := randomHex idxs
    if held.contains x then uniqExtranonce held rest
    else some (x, x :: held)

/-- A freshly accepted NiceHash session with an empty stale cache, used as a
concrete evaluation point. -/
def csFresh : Session :=
  { ip := "203.0.113.7", Extranonce := "abcd", ExtranonceSub := true, stratum := NiceHash,
    worker := "", login := "",
    JobDetails := ⟨"j00", "s00", "h00", "0x1"⟩, staleJobs := [], staleJobIDs := [] }

/-- Eleven successive jobs with pairwise distinct ids. -/
def jobsEleven : List jobDetails :=
  [⟨"j01", "s", "h", "0"⟩, ⟨"j02", "s", "h", "0"⟩, ⟨"j03", "s", "h", "0"⟩,
   ⟨"j04", "s", "h", "0"⟩, ⟨"j05", "s", "h", "0"⟩, ⟨"j06", "s", "h", "0"⟩,
   ⟨"j07", "s", "h", "0"⟩, ⟨"j08", "s", "h", "0"⟩, ⟨"j09", "s", "h", "0"⟩,
   ⟨"j10", "s", "h", "0"⟩, ⟨"j11", "s", "h", "0"⟩]

/-- A session already in EthProxy mode. -/
def csEP : Session := { csFresh with stratum := EthProxy }

/-- A NiceHash session holding one stale job besides its current one. -/
def csStale : Session :=
  { csFresh with
    JobDetails := ⟨"cur", "sc", "hc", "0x2"⟩,
    staleJobs := [("old", ⟨"so", "ho"⟩)], staleJobIDs := ["old"] }

/-- A concrete collaborator environment in which every upstream call succeeds
and the unknown-method reply is the usual "Method not found". -/
def envC : Env :=
  { loginRes := .ok (), getWorkRes := .ok ["0xheadhash", "0xseedhash", "0xdiff", "0xheight"],
    submitRes := .ok (), unknownErr := ⟨-3, "Method not found"⟩,
    newJobID := "deadbeef", hashrateParse := some 1 }

/-- A concrete server state holding exactly the resources of `csFresh`. -/
def st0 : ServerSt :=
  { extranonces := ["abcd"], sessionPresent := true, connClosed := false, banned := [] }

/-- The server state after a full teardown of `csFresh`'s resources. -/
def stTorn : ServerSt :=
  { extranonces := [], sessionPresent := false, connClosed := true, banned := [] }

/-!  ## Theorems  -/

theorem keysOf_mapDelete (m : List (String × staleJob)) (k : String) :
    keysOf (mapDelete m k) = (keysOf m).filter (fun x => x ≠ k) := by
  unfold keysOf mapDelete
  simp only [ne_eq, decide_not]
  induction m with
  | nil => rfl
  | cons p t ih =>
    simp only [List.filter_cons, List.map_cons]
    by_cases h : p.1 = k
    · simpa [h] using ih
    · simpa [h] using ih

theorem mem_keysOf_mapDelete {m : List (String × staleJob)} {k x : String}
    (h : x ∈ keysOf (mapDelete m k)) : x ∈ keysOf m ∧ x ≠ k := by
  rw [keysOf_mapDelete] at h
  have := List.of_mem_filter h
  refine ⟨List.mem_of_mem_filter h, ?_⟩
  simpa using this

theorem nodup_keysOf_mapDelete {m : List (String × staleJob)} (k : String)
    (h : (keysOf m).Nodup) : (keysOf (mapDelete m k)).Nodup := by
  rw [keysOf_mapDelete]
  exact h.filter _

theorem mem_keysOf_foldl_mapDelete {m : List (String × staleJob)} {del : List String} {x : String}
    (h : x ∈ keysOf (del.foldl mapDelete m)) : x ∈ keysOf m ∧ x ∉ del := by
  induction del generalizing m with
  | nil => simpa using h
  | cons d ds ih =>
    have h' := ih (m := mapDelete m d) (by simpa using h)
    have h2 := mem_keysOf_mapDelete h'.1
    refine ⟨h2.1, ?_⟩
    simp only [List.mem_cons, not_or]
    exact ⟨h2.2, h'.2⟩

theorem nodup_keysOf_foldl_mapDelete {m : List (String × staleJob)} {del : List String}
    (h : (keysOf m).Nodup) : (keysOf (del.foldl mapDelete m)).Nodup := by
  induction del generalizing m with
  | nil => simpa using h
  | cons d ds ih => exact ih (nodup_keysOf_mapDelete d h)

theorem keysOf_mapInsert (m : List (String × staleJob)) (k : String) (v : staleJob) :
    keysOf (mapInsert m k v) = keysOf (mapDelete m k) ++ [k] := by
  unfold mapInsert keysOf
  simp

theorem nodup_keysOf_mapInsert {m : List (String × staleJob)} (k : String) (v : staleJob)
    (h : (keysOf m).Nodup) : (keysOf (mapInsert m k v)).Nodup := by
  rw [keysOf_mapInsert]
  refine List.Nodup.append (nodup_keysOf_mapDelete k h) (List.nodup_singleton k) ?_
  intro x hx hx1
  have := mem_keysOf_mapDelete hx
  simp only [List.mem_singleton] at hx1
  exact this.2 hx1

theorem stale_inv_step {cs : Session} (h : StaleInv cs) (j : jobDetails) :
    StaleInv (pushStep cs j) := by
  obtain ⟨hnd, hsub, hlen⟩ := h
  unfold pushStep cacheStales
  simp only
  by_cases hl : cs.staleJobIDs.length > 10
  · simp only [hl, if_pos]
    constructor
    · exact nodup_keysOf_mapInsert _ _ (nodup_keysOf_foldl_mapDelete hnd)
    constructor
    · intro k hk
      rw [keysOf_mapInsert] at hk
      rcases List.mem_append.mp hk with hk | hk
      · have h1 := mem_keysOf_mapDelete hk
        have h2 := mem_keysOf_foldl_mapDelete h1.1
        have h3 : k ∈ cs.staleJobIDs := hsub k h2.1
        have h4 : k ∈ cs.staleJobIDs.take (cs.staleJobIDs.length - 3) ∨
            k ∈ cs.staleJobIDs.drop (cs.staleJobIDs.length - 3) := by
          rw [← List.mem_append, List.take_append_drop]
          exact h3
        rcases h4 with h4 | h4
        · exact absurd h4 h2.2
        · exact List.mem_append.mpr (Or.inl h4)
      · simp only [List.mem_singleton] at hk
        subst hk
        exact List.mem_append.mpr (Or.inr (List.mem_singleton.mpr rfl))
    · have : (cs.staleJobIDs.drop (cs.staleJobIDs.length - 3)).length ≤ 3 := by
        rw [List.length_drop]
        omega
      simp only [List.length_append, List.length_singleton]
      omega
  · simp only [hl, if_neg, if_false]
    constructor
    · exact nodup_keysOf_mapInsert _ _ hnd
    constructor
    · intro k hk
      rw [keysOf_mapInsert] at hk
      rcases List.mem_append.mp hk with hk | hk
      · have h1 := mem_keysOf_mapDelete hk
        exact List.mem_append.mpr (Or.inl (hsub k h1.1))
      · simp only [List.mem_singleton] at hk
        subst hk
        exact List.mem_append.mpr (Or.inr (List.mem_singleton.mpr rfl))
    · simp only [List.length_append, List.length_singleton]
      omega

theorem stale_inv_runPushes {cs : Session} (h : StaleInv cs) (jobs : List jobDetails) :
    StaleInv (runPushes cs jobs) := by
  unfold runPushes
  induction jobs generalizing cs with
  | nil => simpa using h
  | cons j js ih => exact ih (stale_inv_step h j)

theorem staleJobs_size_of_inv {cs : Session} (h : StaleInv cs) :
    cs.staleJobs.length ≤ 11 := by
  obtain ⟨hnd, hsub, hlen⟩ := h
  have hk : cs.staleJobs.length = (keysOf cs.staleJobs).length := by
    unfold keysOf
    simp
  have hcard : (keysOf cs.staleJobs).toFinset.card = (keysOf cs.staleJobs).length :=
    List.toFinset_card_of_nodup hnd
  have hss : (keysOf cs.staleJobs).toFinset ⊆ cs.staleJobIDs.toFinset := by
    intro x hx
    rw [List.mem_toFinset] at hx ⊢
    exact hsub x hx
  have h1 : (keysOf cs.staleJobs).toFinset.card ≤ cs.staleJobIDs.toFinset.card :=
    Finset.card_le_card hss
  have h2 : cs.staleJobIDs.toFinset.card ≤ cs.staleJobIDs.length :=
    List.toFinset_card_le cs.staleJobIDs
  omega

/-- C1 counterexample: starting from a fresh session, eleven job pushes with
distinct job ids leave 11 entries in `staleJobs`, exceeding the claimed bound
`MAX_STALE = 10` (the prune runs only when more than 10 ids were already
recorded *before* the fresh insertion). -/
theorem C1_counterexample :
    (runPushes csFresh jobsEleven).staleJobs.length = 11 ∧
    ¬ (runPushes csFresh jobsEleven).staleJobs.length ≤ 10 := by
  constructor
  · decide
  · decide

/-- C1 (amended): for every session starting with an empty stale cache and
every sequence of job pushes, the size of `staleJobs` stays at most
`MAX_STALE + 1 = 11`; the bound 11 is tight by `C1_counterexample`. -/
theorem C1_stale_cache_bound (cs : Session) (jobs : List jobDetails)
    (h1 : cs.staleJobs = []) (h2 : cs.staleJobIDs = []) :
    (runPushes cs jobs).staleJobs.length ≤ 11 := by
  have hinv : StaleInv cs := by
    refine ⟨?_, ?_, ?_⟩
    · rw [h1]; exact List.nodup_nil
    · intro k hk; rw [h1] at hk; simp [keysOf] at hk
    · rw [h2]; simp
  exact staleJobs_size_of_inv (stale_inv_runPushes hinv jobs)

/-- Witness for `C1_stale_cache_bound` at a concrete session and job list. -/
theorem C1_stale_cache_bound_witness :
    (runPushes csFresh jobsEleven).staleJobs.length ≤ 11 :=
  C1_stale_cache_bound csFresh jobsEleven rfl rfl

/-- C9: `setStratumMode` never returns an error, sets the mode to NiceHash
exactly on input `"EthereumStratum/1.0.0"`, and to EthProxy on every other
input (including the empty string). -/
theorem C9_setStratumMode_total (cs : Session) (str : String) :
    (setStratumMode cs str).2 = none ∧
    (setStratumMode cs str).1.stratum =
      (if str = "EthereumStratum/1.0.0" then NiceHash else EthProxy) := by
  unfold setStratumMode
  split <;> simp

/-- C10: the `SeedHash[0:2]` slice is well-defined only when the seed hash has
at least 2 characters; for every shorter seed hash the guarded embedding takes
its error (panic) branch. -/
theorem C10_strip_needs_two_chars (jd : jobDetails) (h : jd.SeedHash.length < 2) :
    strip0x jd = none := by
  unfold strip0x
  rw [if_neg]
  omega

/-- Witness for `C10_strip_needs_two_chars`: a one-character seed hash, as a
work source could in principle return, reaches the error branch. -/
theorem C10_strip_needs_two_chars_witness :
    strip0x ⟨"jid", "a", "deadbeef", "0x1"⟩ = none :=
  C10_strip_needs_two_chars ⟨"jid", "a", "deadbeef", "0x1"⟩ (by decide)

theorem submitAndReply_session (env : Env) (cs : Session) (id wkr : String) (p : List String) :
    (submitAndReply env cs id wkr p).1 = cs := by
  unfold submitAndReply
  split <;> rfl

theorem sendJob_stratum {env : Env} {cs : Session} {id : String} {nj : Bool}
    {cs' : Session} {effs : List Effect} {r : Option String}
    (h : sendJob env cs id nj = some (cs', effs, r)) : cs'.stratum = cs.stratum := by
  unfold sendJob at h
  try dsimp only at h
  repeat' split at h
  all_goals try exact Option.noConfusion h
  all_goals try simp_all
  all_goals try (obtain ⟨h1, -, -⟩ := h; subst h1)
  all_goals first
    | rfl
    | exact Or.inl rfl
    | exact Or.inr rfl
    | exact sendJob_stratum (by assumption)

theorem handleEthLogin_stratum {env : Env} {cs : Session} {req : StratumReq}
    {cs' : Session} {effs : List Effect} {r : Option String}
    (h : handleEthLogin env cs req = some (cs', effs, r)) : cs'.stratum = cs.stratum := by
  unfold handleEthLogin at h
  try dsimp only at h
  repeat' split at h
  all_goals try exact Option.noConfusion h
  all_goals try simp_all
  all_goals try (obtain ⟨h1, -, -⟩ := h; subst h1)
  all_goals first
    | rfl
    | exact Or.inl rfl
    | exact Or.inr rfl
    | exact sendJob_stratum (by assumption)

theorem handleEthSubmitLogin_stratum {env : Env} {cs : Session} {req : StratumReq}
    {cs' : Session} {effs : List Effect} {r : Option String}
    (h : handleEthSubmitLogin env cs req = some (cs', effs, r)) :
    cs'.stratum = cs.stratum ∨ cs'.stratum = EthProxy := by
  unfold handleEthSubmitLogin setStratumMode at h
  try dsimp only at h
  repeat' split at h
  all_goals try exact Option.noConfusion h
  all_goals try simp_all
  all_goals try (obtain ⟨h1, -, -⟩ := h; subst h1)
  all_goals first
    | rfl
    | exact Or.inl rfl
    | exact Or.inr rfl
    | exact sendJob_stratum (by assumption)

theorem handleMiningSubscribe_stratum {env : Env} {cs : Session} {req : StratumReq}
    {cs' : Session} {effs : List Effect} {r : Option String}
    (h : handleMiningSubscribe env cs req = some (cs', effs, r)) :
    cs'.stratum = cs.stratum ∨ cs'.stratum = NiceHash := by
  unfold handleMiningSubscribe setStratumMode at h
  try dsimp only at h
  repeat' split at h
  all_goals try exact Option.noConfusion h
  all_goals try simp_all
  all_goals try (obtain ⟨h1, -, -⟩ := h; subst h1)
  all_goals first
    | rfl
    | exact Or.inl rfl
    | exact Or.inr rfl
    | exact sendJob_stratum (by assumption)

theorem handleMiningAuthorize_stratum {env : Env} {cs : Session} {req : StratumReq}
    {cs' : Session} {effs : List Effect} {r : Option String}
    (h : handleMiningAuthorize env cs req = some (cs', effs, r)) : cs'.stratum = cs.stratum := by
  unfold handleMiningAuthorize at h
  try dsimp only at h
  repeat' split at h
  all_goals try exact Option.noConfusion h
  all_goals try simp_all
  all_goals try (obtain ⟨h1, -, -⟩ := h; subst h1)
  all_goals first
    | rfl
    | exact Or.inl rfl
    | exact Or.inr rfl
    | exact sendJob_stratum (by assumption)

theorem handleExtranonceSub_stratum {env : Env} {cs : Session} {req : StratumReq}
    {cs' : Session} {effs : List Effect} {r : Option String}
    (h : handleExtranonceSub env cs req = some (cs', effs, r)) : cs'.stratum = cs.stratum := by
  unfold handleExtranonceSub at h
  try dsimp only at h
  repeat' split at h
  all_goals try exact Option.noConfusion h
  all_goals try simp_all
  all_goals try (obtain ⟨h1, -, -⟩ := h; subst h1)
  all_goals first
    | rfl
    | exact Or.inl rfl
    | exact Or.inr rfl
    | exact sendJob_stratum (by assumption)

theorem sendJob_false (env : Env) (cs : Session) (id : String) :
    sendJob env cs id false =
      some (cs, [.notifyJob cs.JobDetails.JobID cs.JobDetails.SeedHash
        cs.JobDetails.HeaderHash true], none) := rfl

theorem handleMiningSubmit_stratum {env : Env} {cs : Session} {req : StratumReq}
    {cs' : Session} {effs : List Effect} {r : Option String}
    (h : handleMiningSubmit env cs req = some (cs', effs, r)) : cs'.stratum = cs.stratum := by
  unfold handleMiningSubmit submitAndReply at h
  try dsimp only at h
  try simp only [sendJob_false] at h
  try dsimp only at h
  repeat' split at h
  all_goals try exact Option.noConfusion h
  all_goals try simp_all
  all_goals try (obtain ⟨h1, -, -⟩ := h; subst h1)
  all_goals first
    | rfl
    | exact Or.inl rfl
    | exact Or.inr rfl
    | exact sendJob_stratum (by assumption)

theorem handleGetWork_stratum {env : Env} {cs : Session} {req : StratumReq}
    {cs' : Session} {effs : List Effect} {r : Option String}
    (h : handleGetWork env cs req = some (cs', effs, r)) : cs'.stratum = cs.stratum := by
  unfold handleGetWork at h
  try dsimp only at h
  repeat' split at h
  all_goals try exact Option.noConfusion h
  all_goals try simp_all
  all_goals try (obtain ⟨h1, -, -⟩ := h; subst h1)
  all_goals first
    | rfl
    | exact Or.inl rfl
    | exact Or.inr rfl
    | exact sendJob_stratum (by assumption)

theorem handleSubmitWork_stratum {env : Env} {cs : Session} {req : StratumReq}
    {cs' : Session} {effs : List Effect} {r : Option String}
    (h : handleSubmitWork env cs req = some (cs', effs, r)) : cs'.stratum = cs.stratum := by
  unfold handleSubmitWork at h
  try dsimp only at h
  repeat' split at h
  all_goals try exact Option.noConfusion h
  all_goals try simp_all
  all_goals try (obtain ⟨h1, -, -⟩ := h; subst h1)
  all_goals first
    | rfl
    | exact Or.inl rfl
    | exact Or.inr rfl
    | exact sendJob_stratum (by assumption)

theorem handleSubmitHashrate_stratum {env : Env} {cs : Session} {req : StratumReq}
    {cs' : Session} {effs : List Effect} {r : Option String}
    (h : handleSubmitHashrate env cs req = some (cs', effs, r)) : cs'.stratum = cs.stratum := by
  unfold handleSubmitHashrate at h
  try dsimp only at h
  repeat' split at h
  all_goals try exact Option.noConfusion h
  all_goals try simp_all
  all_goals try (obtain ⟨h1, -, -⟩ := h; subst h1)
  all_goals first
    | rfl
    | exact Or.inl rfl
    | exact Or.inr rfl
    | exact sendJob_stratum (by assumption)

theorem unknownTCPError_stratum {env : Env} {cs : Session} {req : StratumReq}
    {cs' : Session} {effs : List Effect} {r : Option String}
    (h : unknownTCPError env cs req = some (cs', effs, r)) : cs'.stratum = cs.stratum := by
  unfold unknownTCPError at h
  simp only [Option.some.injEq, Prod.mk.injEq] at h
  obtain ⟨h1, -⟩ := h
  subst h1
  rfl

theorem handleNiceHashMethod_stratum {env : Env} {cs : Session} {req : StratumReq}
    {cs' : Session} {effs : List Effect} {r : Option String}
    (h : handleNiceHashMethod env cs req = some (cs', effs, r)) : cs'.stratum = cs.stratum := by
  unfold handleNiceHashMethod at h
  split at h
  · exact handleMiningAuthorize_stratum h
  · split at h
    · exact handleExtranonceSub_stratum h
    · split at h
      · exact handleMiningSubmit_stratum h
      · simp only [Option.some.injEq, Prod.mk.injEq] at h
        obtain ⟨h1, -⟩ := h
        subst h1
        rfl

theorem handleEthProxyMethod_stratum {env : Env} {cs : Session} {req : StratumReq}
    {cs' : Session} {effs : List Effect} {r : Option String}
    (h : handleEthProxyMethod env cs req = some (cs', effs, r)) : cs'.stratum = cs.stratum := by
  unfold handleEthProxyMethod at h
  split at h
  · exact handleGetWork_stratum h
  · split at h
    · exact handleSubmitWork_stratum h
    · split at h
      · exact handleSubmitHashrate_stratum h
      · exact unknownTCPError_stratum h

/-- A request that no dialect handles. -/
def reqBogus : StratumReq := ⟨"5", "bogus", some [], ""⟩

/-- A valid `mining.subscribe` request. -/
def subReq : StratumReq :=
  ⟨"7", "mining.subscribe", some ["GodMiner/2.0.0", "EthereumStratum/1.0.0"], ""⟩

/-- C2 counterexample: a session whose dialect is already set to EthProxy and
then receives a valid `mining.subscribe` ends with dialect NiceHash — the
dialect is set a second time and flips, refuting "set at most once". -/
theorem C2_counterexample :
    csEP.stratum = EthProxy ∧ EthProxy ≠ NiceHash ∧
    (handleTCPMessage envC csEP subReq).map (fun out => out.1.stratum) = some NiceHash := by
  refine ⟨rfl, by decide, ?_⟩
  decide

/-- C2 (amended): the dialect never returns to Unset (`-1`) once set, and it
only ever changes through `eth_submitLogin` (to EthProxy) or
`mining.subscribe` (to NiceHash); but those methods re-set it unconditionally,
so it can flip between the two dialects (see `C2_counterexample`). -/
theorem C2_dialect_evolution (env : Env) (cs : Session) (req : StratumReq)
    (cs' : Session) (effs : List Effect) (r : Option String)
    (h : handleTCPMessage env cs req = some (cs', effs, r)) :
    (cs.stratum ≠ -1 → cs'.stratum ≠ -1) ∧
    (cs'.stratum ≠ cs.stratum →
      (req.Method = "eth_submitLogin" ∧ cs'.stratum = EthProxy) ∨
      (req.Method = "mining.subscribe" ∧ cs'.stratum = NiceHash)) := by
  unfold handleTCPMessage at h
  split at h
  · have hs := handleEthLogin_stratum h
    exact ⟨fun h1 => by rw [hs]; exact h1, fun h1 => absurd hs h1⟩
  · split at h
    · rename_i hm2
      rcases handleEthSubmitLogin_stratum h with hs | hs
      · exact ⟨fun h1 => by rw [hs]; exact h1, fun h1 => absurd hs h1⟩
      · exact ⟨fun h1 => by rw [hs]; decide, fun h1 => Or.inl ⟨hm2, hs⟩⟩
    · split at h
      · rename_i hm3
        rcases handleMiningSubscribe_stratum h with hs | hs
        · exact ⟨fun h1 => by rw [hs]; exact h1, fun h1 => absurd hs h1⟩
        · exact ⟨fun h1 => by rw [hs]; decide, fun h1 => Or.inr ⟨hm3, hs⟩⟩
      · split at h
        · have hs := handleNiceHashMethod_stratum h
          exact ⟨fun h1 => by rw [hs]; exact h1, fun h1 => absurd hs h1⟩
        · split at h
          · have hs := handleEthProxyMethod_stratum h
            exact ⟨fun h1 => by rw [hs]; exact h1, fun h1 => absurd hs h1⟩
          · have hs := unknownTCPError_stratum h
            exact ⟨fun h1 => by rw [hs]; exact h1, fun h1 => absurd hs h1⟩

/-- Witness for `C2_dialect_evolution` at a concrete NiceHash session and an
unknown-method request. -/
theorem C2_dialect_evolution_witness :
    (csFresh.stratum ≠ -1 → csFresh.stratum ≠ -1) ∧
    (csFresh.stratum ≠ csFresh.stratum →
      (reqBogus.Method = "eth_submitLogin" ∧ csFresh.stratum = EthProxy) ∨
      (reqBogus.Method = "mining.subscribe" ∧ csFresh.stratum = NiceHash)) :=
  C2_dialect_evolution envC csFresh reqBogus csFresh
    [Effect.stratumError2 "5" "-3" "Method not found"] none (by decide)

/-- C3 counterexample: in EthProxy mode an unknown method draws the error
reply but the handler returns a non-nil error, so the reader loop terminates
the session instead of continuing. -/
theorem C3_counterexample :
    handleTCPMessage envC csEP reqBogus =
      some (csEP, [Effect.tcpError "5" (-3) "Method not found"], some "Method not found") ∧
    (some "Method not found" : Option String) ≠ none := by
  constructor
  · decide
  · decide

/-- C3 (amended): a request whose method no dialect handles always draws an
error reply, but the session continues (nil return) only in NiceHash mode; in
EthProxy or Unset mode `sendTCPError` additionally returns the reply message
as a non-nil error, terminating the session. -/
theorem C3_unknown_method (env : Env) (cs : Session) (rid m w : String)
    (p : Option (List String))
    (hm : m ∉ (["eth_login", "eth_submitLogin", "mining.subscribe", "mining.authorize",
      "mining.extranonce.subscribe", "mining.submit", "eth_getWork", "eth_submitWork",
      "eth_submitHashrate"] : List String)) :
    (cs.stratum = NiceHash →
      handleTCPMessage env cs ⟨rid, m, p, w⟩ =
        some (cs, [.stratumError2 rid (toString env.unknownErr.Code) env.unknownErr.Message],
          none)) ∧
    (cs.stratum ≠ NiceHash →
      handleTCPMessage env cs ⟨rid, m, p, w⟩ =
        some (cs, [.tcpError rid env.unknownErr.Code env.unknownErr.Message],
          some env.unknownErr.Message)) := by
  simp only [List.mem_cons, List.not_mem_nil, or_false, not_or] at hm
  obtain ⟨h1, h2, h3, h4, h5, h6, h7, h8, h9⟩ := hm
  constructor
  · intro hs
    simp [handleTCPMessage, handleNiceHashMethod, h1, h2, h3, h4, h5, h6, hs]
  · intro hs
    by_cases h0 : cs.stratum = EthProxy
    · simp [handleTCPMessage, handleEthProxyMethod, unknownTCPError,
        h1, h2, h3, h7, h8, h9, hs, h0, EthProxy, NiceHash]
    · simp [handleTCPMessage, unknownTCPError, h1, h2, h3, hs, h0]

/-- Witness for `C3_unknown_method` at a concrete NiceHash session. -/
theorem C3_unknown_method_witness :
    handleTCPMessage envC csFresh ⟨"6", "bogus", some [], ""⟩ =
      some (csFresh, [.stratumError2 "6" (toString envC.unknownErr.Code)
        envC.unknownErr.Message], none) :=
  (C3_unknown_method envC csFresh "6" "bogus" "" (some []) (by decide)).1 rfl

theorem submitAndReply_shape (env : Env) (cs : Session) (id wkr : String) (p : List String) :
    ∃ tail, submitAndReply env cs id wkr p = (cs, Effect.submitCall wkr p :: tail, none) := by
  unfold submitAndReply
  cases env.submitRes with
  | error er => exact ⟨[.stratumError2 id (toString er.Code) er.Message], rfl⟩
  | ok u => exact ⟨[.stratumResult id], rfl⟩

/-- C6: NiceHash `mining.submit` with params `[user, jobID, minerNonce]`:
a share for the current job is forwarded to `handleTCPSubmitRPC` with
`[extranonce ++ minerNonce, current seed, current header]` (extranonce prefix
omitted unless subscribed); a share for a cached stale job forwards that cache
entry's seed/header instead; any other job id draws the
`["21","Stale share."]` reply followed by a re-notify of the current job, with
a nil return so the session continues. -/
theorem C6_mining_submit (env : Env) (cs : Session) (user jid mn rid w : String)
    (hs : cs.stratum = NiceHash) :
    (jid = cs.JobDetails.JobID →
      ∃ tail, handleTCPMessage env cs ⟨rid, "mining.submit", some [user, jid, mn], w⟩ =
        some ({ cs with worker := submitWorkerOf user },
          Effect.submitCall (submitWorkerOf user)
            [(if cs.ExtranonceSub then cs.Extranonce else "") ++ mn,
             cs.JobDetails.SeedHash, cs.JobDetails.HeaderHash] :: tail,
          none)) ∧
    (∀ st : staleJob, jid ≠ cs.JobDetails.JobID → mapLookup cs.staleJobs jid = some st →
      ∃ tail, handleTCPMessage env cs ⟨rid, "mining.submit", some [user, jid, mn], w⟩ =
        some ({ cs with worker := submitWorkerOf user },
          Effect.submitCall (submitWorkerOf user)
            [(if cs.ExtranonceSub then cs.Extranonce else "") ++ mn,
             st.SeedHash, st.HeaderHash] :: tail,
          none)) ∧
    (jid ≠ cs.JobDetails.JobID → mapLookup cs.staleJobs jid = none →
      handleTCPMessage env cs ⟨rid, "mining.submit", some [user, jid, mn], w⟩ =
        some ({ cs with worker := submitWorkerOf user },
          [Effect.stratumError2 rid "21" "Stale share.",
           Effect.notifyJob cs.JobDetails.JobID cs.JobDetails.SeedHash
             cs.JobDetails.HeaderHash true],
          none)) := by
  have n1 : ¬(("mining.submit" : String) = "eth_login") := by decide
  have n2 : ¬(("mining.submit" : String) = "eth_submitLogin") := by decide
  have n3 : ¬(("mining.submit" : String) = "mining.subscribe") := by decide
  have n4 : ¬(("mining.submit" : String) = "mining.authorize") := by decide
  have n5 : ¬(("mining.submit" : String) = "mining.extranonce.subscribe") := by decide
  have hred : handleTCPMessage env cs ⟨rid, "mining.submit", some [user, jid, mn], w⟩ =
      handleMiningSubmit env cs ⟨rid, "mining.submit", some [user, jid, mn], w⟩ := by
    unfold handleTCPMessage handleNiceHashMethod
    dsimp only
    rw [if_neg n1, if_neg n2, if_neg n3, if_pos hs, if_neg n4, if_neg n5, if_pos rfl]
  have hMS : handleMiningSubmit env cs ⟨rid, "mining.submit", some [user, jid, mn], w⟩ =
      if jid = cs.JobDetails.JobID then
        some (submitAndReply env { cs with worker := submitWorkerOf user } rid
          (submitWorkerOf user)
          [(if cs.ExtranonceSub then cs.Extranonce else "") ++ mn,
           cs.JobDetails.SeedHash, cs.JobDetails.HeaderHash])
      else
        match mapLookup cs.staleJobs jid with
        | some st =>
          some (submitAndReply env { cs with worker := submitWorkerOf user } rid
            (submitWorkerOf user)
            [(if cs.ExtranonceSub then cs.Extranonce else "") ++ mn,
             st.SeedHash, st.HeaderHash])
        | none =>
          some ({ cs with worker := submitWorkerOf user },
            [Effect.stratumError2 rid "21" "Stale share.",
             Effect.notifyJob cs.JobDetails.JobID cs.JobDetails.SeedHash
               cs.JobDetails.HeaderHash true],
            none) := rfl
  refine ⟨?_, ?_, ?_⟩
  · intro hj
    obtain ⟨tail, ht⟩ := submitAndReply_shape env { cs with worker := submitWorkerOf user } rid
      (submitWorkerOf user) [(if cs.ExtranonceSub then cs.Extranonce else "") ++ mn,
        cs.JobDetails.SeedHash, cs.JobDetails.HeaderHash]
    refine ⟨tail, ?_⟩
    rw [hred, hMS, if_pos hj, ht]
  · intro st hne hst
    obtain ⟨tail, ht⟩ := submitAndReply_shape env { cs with worker := submitWorkerOf user } rid
      (submitWorkerOf user) [(if cs.ExtranonceSub then cs.Extranonce else "") ++ mn,
        st.SeedHash, st.HeaderHash]
    refine ⟨tail, ?_⟩
    rw [hred, hMS, if_neg hne]
    simp only [hst]
    rw [ht]
  · intro hne hmiss
    rw [hred, hMS, if_neg hne]
    simp only [hmiss]

/-- Witness for `C6_mining_submit`: a stale-cached share at concrete inputs. -/
theorem C6_mining_submit_witness :
    ("old" : String) ≠ csStale.JobDetails.JobID ∧
    mapLookup csStale.staleJobs "old" = some ⟨"so", "ho"⟩ ∧
    (∃ tail, handleTCPMessage envC csStale ⟨"9", "mining.submit",
        some ["u.rigA", "old", "1234"], ""⟩ =
      some ({ csStale with worker := submitWorkerOf "u.rigA" },
        Effect.submitCall (submitWorkerOf "u.rigA")
          [(if csStale.ExtranonceSub then csStale.Extranonce else "") ++ "1234", "so", "ho"]
          :: tail,
        none)) :=
  ⟨by decide, by decide,
    (C6_mining_submit envC csStale "u.rigA" "old" "1234" "9" "" rfl).2.1
      ⟨"so", "ho"⟩ (by decide) (by decide)⟩

/-- C7 counterexample: in EthProxy mode, `eth_submitWork` params that decode
as JSON strings but have the wrong lengths produce no reply at all and a nil
return — the session continues, refuting "error reply sent and session
terminated". -/
theorem C7_counterexample :
    handleTCPMessage envC csEP ⟨"3", "eth_submitWork", some ["0x12", "0xab", "0xcd"], ""⟩ =
      some (csEP, [], none) := by
  decide

/-- C7 (amended): for an EthProxy session, an `eth_submitWork` request whose
params decode as JSON strings but have fewer than 3 elements or element
lengths other than (18, 66, 66) is silently dropped: no error reply is sent
and the handler returns the nil decode error, so the session continues. -/
theorem C7_submitWork_malformed (env : Env) (cs : Session) (rid w : String)
    (params : List String) (hs : cs.stratum = EthProxy)
    (hbad : params.length < 3 ∨ (params.getD 0 "").length ≠ 18 ∨
      (params.getD 1 "").length ≠ 66 ∨ (params.getD 2 "").length ≠ 66) :
    handleTCPMessage env cs ⟨rid, "eth_submitWork", some params, w⟩ =
      some (cs, [], none) := by
  have n1 : ¬(("eth_submitWork" : String) = "eth_login") := by decide
  have n2 : ¬(("eth_submitWork" : String) = "eth_submitLogin") := by decide
  have n3 : ¬(("eth_submitWork" : String) = "mining.subscribe") := by decide
  have n4 : ¬(("eth_submitWork" : String) = "eth_getWork") := by decide
  have hz : cs.stratum ≠ NiceHash := by rw [hs]; decide
  unfold handleTCPMessage handleEthProxyMethod
  dsimp only
  rw [if_neg n1, if_neg n2, if_neg n3, if_neg hz, if_pos hs, if_neg n4, if_pos rfl]
  have hSW : handleSubmitWork env cs ⟨rid, "eth_submitWork", some params, w⟩ =
      if params.length < 3 ∨ (params.getD 0 "").length ≠ 18 ∨
          (params.getD 1 "").length ≠ 66 ∨ (params.getD 2 "").length ≠ 66 then
        some (cs, [], none)
      else
        match env.submitRes with
        | .error er => some (cs, [Effect.tcpError rid er.Code er.Message], some er.Message)
        | .ok _ => some (cs, [Effect.tcpResult rid], none) := rfl
  rw [hSW, if_pos hbad]

/-- Witness for `C7_submitWork_malformed` at a concrete malformed request. -/
theorem C7_submitWork_malformed_witness :
    handleTCPMessage envC csEP ⟨"4", "eth_submitWork", some ["0x12"], ""⟩ =
      some (csEP, [], none) :=
  C7_submitWork_malformed envC csEP "4" "" ["0x12"] rfl (by decide)

/-- C4 counterexample: on the EOF termination path the session is removed and
its extranonce released, but the transport is never closed —
`handleTCPClient` returns nil on EOF, so the `ListenTCP` goroutine skips
`conn.Close()` — refuting "on every termination path ... its transport is
closed". -/
theorem C4_counterexample :
    runSession st0 csFresh [InEvent.eofEv] =
      some (⟨[], false, false, []⟩, [Effect.removeSessionEff], none) ∧
    (⟨[], false, false, []⟩ : ServerSt).connClosed = false := by
  constructor
  · decide
  · decide

/-- C4 (amended): on termination paths where the reader returns a non-nil
error (read error, malformed JSON, handler error) the extranonce is released,
the session is removed and the transport closed; on EOF the extranonce is
released and the session removed but the transport stays open; on an
over-long line only the policy ban happens — nothing is released or closed. -/
theorem C4_resource_release :
    (∀ (st : ServerSt) (cs : Session) (evs : List InEvent) (st' : ServerSt)
        (effs : List Effect) (e : String),
      runSession st cs evs = some (st', effs, some e) →
      st'.connClosed = true ∧ st'.sessionPresent = false ∧
        cs.Extranonce ∉ st'.extranonces) ∧
    (∀ (st : ServerSt) (cs : Session),
      runSession st cs [InEvent.eofEv] =
        some ({ st with
          extranonces := st.extranonces.filter (fun x => x != cs.Extranonce),
          sessionPresent := false }, [Effect.removeSessionEff], none)) ∧
    (∀ (st : ServerSt) (cs : Session),
      runSession st cs [InEvent.tooLong] =
        some ({ st with banned := cs.ip :: st.banned }, [Effect.banClient cs.ip], none)) := by
  refine ⟨?_, ?_, ?_⟩
  · intro st cs evs st' effs e h
    unfold runSession at h
    split at h
    · rename_i cs0 effs0 ret
      simp only [Option.some.injEq, Prod.mk.injEq] at h
      obtain ⟨h1, h2, h3⟩ := h
      subst h3
      simp only [Option.isSome_some, if_true] at h1
      subst h1
      refine ⟨rfl, rfl, ?_⟩
      intro hmem
      have hx := List.mem_filter.mp hmem
      simp at hx
    · exact Option.noConfusion h
  · intro st cs
    rfl
  · intro st cs
    rfl

/-- Witness for `C4_resource_release` at a concrete failing read. -/
theorem C4_resource_release_witness :
    stTorn.connClosed = true ∧ stTorn.sessionPresent = false ∧
      csFresh.Extranonce ∉ stTorn.extranonces :=
  (C4_resource_release).1 st0 csFresh [InEvent.readFail "io"] stTorn [] "io" (by decide)

/-- C5: on an over-long line (`ReadLine` reports the line incomplete) the
client ip is passed to the policy ban, but `handleTCPClient` returns the nil
`ReadLine` error, so the `ListenTCP` goroutine neither removes the session
(extranonce stays held) nor closes the connection — contrary to the claim and
to the code's own comment "ban the client and return an error". -/
theorem C5_flood_ban_behavior :
    runSession st0 csFresh [InEvent.tooLong] =
      some ({ st0 with banned := [csFresh.ip] }, [Effect.banClient csFresh.ip], none) ∧
    ({ st0 with banned := [csFresh.ip] } : ServerSt).connClosed = false ∧
    ({ st0 with banned := [csFresh.ip] } : ServerSt).sessionPresent = true ∧
    csFresh.Extranonce ∈ ({ st0 with banned := [csFresh.ip] } : ServerSt).extranonces := by
  refine ⟨by decide, by decide, by decide, by decide⟩

theorem hexChars_getD_mem (i : Nat) : hexChars.getD (i % 16) '0' ∈ hexChars := by
  have hlen : hexChars.length = 16 := rfl
  have h16 : i % 16 < hexChars.length := by
    rw [hlen]
    exact Nat.mod_lt _ (by decide)
  rw [List.getD_eq_getElem hexChars '0' h16]
  exact List.getElem_mem h16

theorem randomHex_length (idxs : List Nat) : (randomHex idxs).length = idxs.length := by
  show (idxs.map _).length = idxs.length
  exact List.length_map idxs _

theorem randomHex_chars (idxs : List Nat) : ∀ ch ∈ (randomHex idxs).toList, ch ∈ hexChars := by
  intro ch hch
  have : ch ∈ idxs.map (fun i => hexChars.getD (i % 16) '0') := hch
  obtain ⟨i, -, rfl⟩ := List.mem_map.mp this
  exact hexChars_getD_mem i

/-- C8: whenever the random stream eventually yields a value outside the held
set, `uniqExtranonce` returns a 4-character string over `[0-9a-f]` that is not
held at the moment of return, and records it in the set; in particular a
colliding first draw is retried. -/
theorem C8_uniqExtranonce_fresh (held : List String) (cands : List (List Nat))
    (hlen : ∀ c ∈ cands, c.length = 4)
    (hex : ∃ c ∈ cands, held.contains (randomHex c) = false) :
    ∃ x held', uniqExtranonce held cands = some (x, held') ∧
      held.contains x = false ∧ held' = x :: held ∧
      x.length = 4 ∧ ∀ ch ∈ x.toList, ch ∈ hexChars := by
  induction cands with
  | nil => simp at hex
  | cons c cands ih =>
    by_cases hc : held.contains (randomHex c) = true
    · have hex' : ∃ d ∈ cands, held.contains (randomHex d) = false := by
        rcases hex with ⟨d, hd, hfresh⟩
        rcases List.mem_cons.mp hd with rfl | hd'
        · rw [hc] at hfresh
          exact absurd hfresh (by decide)
        · exact ⟨d, hd', hfresh⟩
      have hlen' : ∀ d ∈ cands, d.length = 4 := fun d hd => hlen d (List.mem_cons_of_mem _ hd)
      obtain ⟨x, held', hres, h2, h3, h4, h5⟩ := ih hlen' hex'
      refine ⟨x, held', ?_, h2, h3, h4, h5⟩
      show (if held.contains (randomHex c) = true then uniqExtranonce held cands
        else some (randomHex c, randomHex c :: held)) = some (x, held')
      rw [if_pos hc]
      exact hres
    · refine ⟨randomHex c, randomHex c :: held, ?_, ?_, rfl, ?_, randomHex_chars c⟩
      · show (if held.contains (randomHex c) = true then uniqExtranonce held cands
          else some (randomHex c, randomHex c :: held)) = some (randomHex c, randomHex c :: held)
        rw [if_neg hc]
      · simpa using hc
      · rw [randomHex_length]
        exact hlen c (List.mem_cons_self _ _)

/-- Witness for `C8_uniqExtranonce_fresh`: the first draw collides with the
held extranonce `"abcd"`, the retry returns the fresh `"0000"`. -/
theorem C8_uniqExtranonce_fresh_witness :
    ∃ x held', uniqExtranonce ["abcd"] [[10, 11, 12, 13], [0, 0, 0, 0]] = some (x, held') ∧
      (["abcd"] : List String).contains x = false ∧ held' = x :: ["abcd"] ∧
      x.length = 4 ∧ ∀ ch ∈ x.toList, ch ∈ hexChars :=
  C8_uniqExtranonce_fresh ["abcd"] [[10, 11, 12, 13], [0, 0, 0, 0]] (by decide) (by decide)

end Pool
